import Mathlib

/-!
Verification development for the WatinglistDB repository.

The repository manages mental-health facility waiting lists and accepted
lists.  Its core lives in two Python files:

  * WaitingListDataLoader.py : backend adapters (Excel, Google Sheet,
    Supabase remote table) with field-translation tables between the
    canonical Hebrew record schema and each backend schema.
  * waiting_list_app.py : the service operations (add, remove, edit,
    promote to accepted, demote to waiting) and the statistics engine.

Python dictionaries are embedded as association lists of string keys and
a small value type covering the strings, booleans and integers the data
flow actually carries.  The data store (facility to branch to record
list) is embedded as a nested association list, matching the nested dict
comprehension in the source.  Network and file boundaries are embedded
as explicit inputs: an HTTP response becomes a sum of (ok rows),
(error status) and (transport failure), a spreadsheet file becomes an
optional list of sheets.  Exceptions that escape a Python function are
embedded with Except.
-/

/-- Value type of the Python dictionaries in the repository: strings,
booleans (the urgent flag) and integers (JSON numbers). -/
inductive Val where
  | str (s : String)
  | bool (b : Bool)
  | int (n : Int)
  deriving DecidableEq, Repr

/-- A Python dict with string keys, embedded as an association list. -/
abbrev Person := List (String × Val)

/-- Embedding of dict.get(k): the value at the first matching key. -/
def dget : Person → String → Option Val
  | [], _ => none
  | (k, v) :: rest, key => if k = key then some v else dget rest key

/-- Embedding of dict assignment d[k] = v : overwrite the existing key in
place, or append the key when absent. -/
def dset (r : Person) (key : String) (v : Val) : Person :=
  if (dget r key).isSome then
    r.map (fun p => if p.1 = key then (key, v) else p)
  else
    r ++ [(key, v)]

/-- Python truthiness of a value, used by conditions such as
if row.get(name_col) . -/
def vtruthy : Val → Bool
  | .str s => s ≠ ""
  | .bool b => b
  | .int n => n ≠ 0

/-- Embedding of str(v) on the value type. -/
def valToPyStr : Val → String
  | .str s => s
  | .bool true => "True"
  | .bool false => "False"
  | .int n => toString n

/-- Embedding of the Python str.strip() call: drop leading and trailing
whitespace.  Implemented structurally on the character list so that the
kernel can evaluate it on concrete inputs. -/
def pytrim (s : String) : String :=
  ⟨((s.data.dropWhile Char.isWhitespace).reverse.dropWhile
      Char.isWhitespace).reverse⟩

/-- Embedding of the urgent-flag coercion used by both move handlers in
waiting_list_app.py: True if the looked-up value is in
[True, "כן", "true", "True", 1] else False. -/
def urgentCoerce (v : Option Val) : Bool :=
  v = some (.bool true) ∨ v = some (.str "כן") ∨ v = some (.str "true") ∨
    v = some (.str "True") ∨ v = some (.int 1)

/-! ### Field-translation tables (WaitingListDataLoader.py, SupabaseDBClient)

Each table is copied directly from the corresponding field_map dict in the
source.  The from-backend tables map Supabase column names to Hebrew
canonical names (read_waiting_list, read_accepted_list); the to-backend
tables map Hebrew canonical names to Supabase column names (add_person,
add_person_to_accepted_list). -/

/-- field_map of SupabaseDBClient.read_waiting_list. -/
def waitingFieldMapFrom : List (String × String) :=
  [("name", "שם מלא"),
   ("date_added", "תאריך"),
   ("address", "כתובת"),
   ("referrer", "גורם מפנה"),
   ("committee_approval", "אישור ועדה"),
   ("psychiatric_report", "דוח פסיכיאטרי"),
   ("psychosocial_report", "דוח פסיכוסוציאלי"),
   ("medical_report", "דוח רפואי"),
   ("id_photo", "צילום תז"),
   ("comments", "הערות"),
   ("urgent_case", "מקרה דחוף"),
   ("branch", "סניף"),
   ("facility", "מרחב")]

/-- field_map of SupabaseDBClient.add_person. -/
def waitingFieldMapTo : List (String × String) :=
  [("שם מלא", "name"),
   ("תאריך", "date_added"),
   ("כתובת", "address"),
   ("גורם מפנה", "referrer"),
   ("אישור ועדה", "committee_approval"),
   ("דוח פסיכיאטרי", "psychiatric_report"),
   ("דוח פסיכוסוציאלי", "psychosocial_report"),
   ("דוח רפואי", "medical_report"),
   ("צילום תז", "id_photo"),
   ("הערות", "comments"),
   ("מקרה דחוף", "urgent_case"),
   ("סניף", "branch"),
   ("מרחב", "facility")]

/-- field_map of SupabaseDBClient.read_accepted_list. -/
def acceptedFieldMapFrom : List (String × String) :=
  [("name", "שם מלא"),
   ("date_added", "תאריך המתנה"),
   ("date_accepted", "תאריך קבלה"),
   ("address", "כתובת"),
   ("referrer", "גורם מפנה"),
   ("committee_approval", "אישור ועדה"),
   ("psychiatric_report", "דוח פסיכיאטרי"),
   ("psychosocial_report", "דוח פסיכוסוציאלי"),
   ("medical_report", "דוח רפואי"),
   ("id_photo", "צילום תז"),
   ("comments", "הערות"),
   ("urgent_case", "מקרה דחוף"),
   ("original_branch", "סניף מקורי"),
   ("branch", "סניף"),
   ("facility", "מרחב")]

/-- field_map of SupabaseDBClient.add_person_to_accepted_list.  Note that
unlike the from-backend accepted map, it has no entry for the urgent-case
field מקרה דחוף. -/
def acceptedFieldMapTo : List (String × String) :=
  [("שם מלא", "name"),
   ("תאריך המתנה", "date_added"),
   ("תאריך קבלה", "date_accepted"),
   ("כתובת", "address"),
   ("גורם מפנה", "referrer"),
   ("אישור ועדה", "committee_approval"),
   ("דוח פסיכיאטרי", "psychiatric_report"),
   ("דוח פסיכוסוציאלי", "psychosocial_report"),
   ("דוח רפואי", "medical_report"),
   ("צילום תז", "id_photo"),
   ("הערות", "comments"),
   ("סניף מקורי", "original_branch"),
   ("סניף", "branch"),
   ("מרחב", "facility")]

/-- Lookup of a key in a translation table (Python: k in field_map /
field_map[k]). -/
def mLookup : List (String × String) → String → Option String
  | [], _ => none
  | (k, v) :: rest, key => if k = key then some v else mLookup rest key

/-- Embedding of the to-backend dict comprehension
\x7bfield_map[k]: v for k, v in person.items() if k in field_map\x7d. -/
def toBackendWith (m : List (String × String)) (r : Person) : Person :=
  r.filterMap (fun p => (mLookup m p.1).map (fun k2 => (k2, p.2)))

/-- Embedding of the from-backend per-row conversion in read_waiting_list
and read_accepted_list: person[v] = row.get(k, "") for every (k, v) in the
field map, then person.pop("מרחב", None). -/
def fromBackendWith (m : List (String × String)) (row : Person) : Person :=
  (m.map (fun p => (p.2, (dget row p.1).getD (.str "")))).filter
    (fun p => p.1 ≠ "מרחב")

/-- add_person: translation of a canonical record to a WaitingList row. -/
def waitingToBackend (r : Person) : Person := toBackendWith waitingFieldMapTo r

/-- read_waiting_list: translation of a WaitingList row to a canonical record. -/
def waitingFromBackend (row : Person) : Person :=
  fromBackendWith waitingFieldMapFrom row

/-- add_person_to_accepted_list: translation of a canonical record to an
AcceptedList row. -/
def acceptedToBackend (r : Person) : Person :=
  toBackendWith acceptedFieldMapTo r

/-- read_accepted_list: translation of an AcceptedList row to a canonical
record. -/
def acceptedFromBackend (row : Person) : Person :=
  fromBackendWith acceptedFieldMapFrom row

/-! ### Data store

Python shape: \x7bfacility: \x7bbranch: [person, ...]\x7d\x7d, embedded as a nested
association list so that presence of a facility or branch key is a real
statement. -/

/-- Nested data store: facility to branch to record list. -/
abbrev DataStore := List (String × List (String × List Person))

/-- Embedding of \x7bfacility: \x7bbranch: [] for branch in branches\x7d\x7d. -/
def mkEmptyStore (facility : String) (branches : List String) : DataStore :=
  [(facility, branches.map (fun b => (b, [])))]

/-- Branch-map lookup inside a store (data_store[facility]). -/
def dsFacility (ds : DataStore) (facility : String) :
    Option (List (String × List Person)) :=
  (ds.find? (fun p => p.1 = facility)).map (fun p => p.2)

/-- Embedding of data_store[facility][branch].  Missing keys would raise
KeyError in Python; the operations in scope only access configured keys,
so the embedding returns the empty list there. -/
def dsGet (ds : DataStore) (facility branch : String) : List Person :=
  ((((dsFacility ds facility).getD []).find? (fun p => p.1 = branch)).map
    (fun p => p.2)).getD []

/-- Embedding of data_store[facility][branch].append(person). -/
def dsAppend (ds : DataStore) (facility branch : String) (p : Person) :
    DataStore :=
  ds.map (fun f =>
    if f.1 = facility then
      (f.1, f.2.map (fun b => if b.1 = branch then (b.1, b.2 ++ [p]) else b))
    else f)

/-- Branch keys configured for a facility in a store. -/
def dsBranchKeys (ds : DataStore) (facility : String) : List String :=
  ((dsFacility ds facility).getD []).map (fun p => p.1)

/-! ### The add operation (waiting_list_app.py, add_to_waitlist) -/

/-- The name argument of add_to_waitlist is either a person dict or a
bare name string (isinstance(name, dict) dispatch). -/
inductive NameOrPerson where
  | person (p : Person)
  | name (s : String)

/-- Embedding of the strip-based emptiness test
not person.get("שם מלא", "").strip().  A non-string name value would
raise AttributeError in Python; the records in scope carry string names. -/
def stripEmpty (v : Val) : Bool :=
  match v with
  | .str s => pytrim s = ""
  | _ => false

/-- Embedding of add_to_waitlist (waiting_list_app.py lines 34-48):
returns the success flag together with the resulting store. -/
def addToWaitlist (ds : DataStore) (arg : NameOrPerson)
    (facility branch : String) : Bool × DataStore :=
  match arg with
  | .person p =>
      if stripEmpty ((dget p "שם מלא").getD (.str "")) then (false, ds)
      else (true, dsAppend ds facility branch p)
  | .name s =>
      let s2 := pytrim s
      if s2 = "" then (false, ds)
      else (true, dsAppend ds facility branch [("שם מלא", .str s2)])

/-! ### Remote table operations (SupabaseDBClient)

The two Supabase tables are embedded as lists of native rows.  A
name-keyed delete (?name=eq.key) removes every row whose name column
equals the key; on no match the REST call still succeeds, so the delete
is a silent no-op. -/

/-- Embedding of DELETE ...?name=eq.key on a table. -/
def removeByName (table : List Person) (key : String) : List Person :=
  table.filter (fun r => ¬ dget r "name" = some (.str key))

/-- Does a table contain a row whose name column equals the key. -/
def nameInTable (table : List Person) (key : String) : Bool :=
  table.any (fun r => dget r "name" = some (.str key))

/-- The accepted-list record constructed by the promote handler
(waiting_list_app.py lines 347-365), including the final urgent-flag
assignment accepted_person["מקרה דחוף"] = True if ... else False. -/
def mkAcceptedPerson (p : Person) (origBranch targetBranch facility today :
    String) : Person :=
  let base : Person :=
    [("שם מלא", (dget p "שם מלא").getD (.str "")),
     ("תאריך המתנה", (dget p "תאריך").getD (.str "")),
     ("תאריך קבלה", .str today),
     ("כתובת", (dget p "כתובת").getD (.str "")),
     ("גורם מפנה", (dget p "גורם מפנה").getD (.str "")),
     ("סניף מקורי", .str origBranch),
     ("אישור ועדה", (dget p "אישור ועדה").getD (.str "")),
     ("דוח פסיכיאטרי", (dget p "דוח פסיכיאטרי").getD (.str "")),
     ("דוח פסיכוסוציאלי", (dget p "דוח פסיכוסוציאלי").getD (.str "")),
     ("דוח רפואי", (dget p "דוח רפואי").getD (.str "")),
     ("צילום תז", (dget p "צילום תז").getD (.str "")),
     ("הערות", (dget p "הערות").getD (.str "")),
     ("סניף", .str targetBranch),
     ("מרחב", .str facility)]
  dset base "מקרה דחוף" (.bool (urgentCoerce (dget p "מקרה דחוף")))

/-- The waiting-list record constructed by the demote handler
(waiting_list_app.py lines 675-692).  The dict literal carries no
urgent-case key (the copying line is commented out in the source); the
subsequent assignment recomputes the flag from waiting_person itself. -/
def mkWaitingPerson (p : Person) (targetBranch facility : String) : Person :=
  let base : Person :=
    [("שם מלא", (dget p "שם מלא").getD (.str "")),
     ("תאריך", (dget p "תאריך המתנה").getD ((dget p "תאריך").getD (.str ""))),
     ("כתובת", (dget p "כתובת").getD (.str "")),
     ("גורם מפנה", (dget p "גורם מפנה").getD (.str "")),
     ("אישור ועדה", (dget p "אישור ועדה").getD (.str "")),
     ("דוח פסיכיאטרי", (dget p "דוח פסיכיאטרי").getD (.str "")),
     ("דוח פסיכוסוציאלי", (dget p "דוח פסיכוסוציאלי").getD (.str "")),
     ("דוח רפואי", (dget p "דוח רפואי").getD (.str "")),
     ("צילום תז", (dget p "צילום תז").getD (.str "")),
     ("הערות", (dget p "הערות").getD (.str "")),
     ("סניף", .str targetBranch),
     ("מרחב", .str facility)]
  dset base "מקרה דחוף" (.bool (urgentCoerce (dget base "מקרה דחוף")))

/-- The backend calls a move handler can issue, in issue order. -/
inductive DBOp where
  | appendWaiting (row : Person)
  | deleteWaiting (key : String)
  | appendAccepted (row : Person)
  | deleteAccepted (key : String)

/-- Effect of one backend call on the pair (WaitingList table,
AcceptedList table). -/
def applyOp : List Person × List Person → DBOp → List Person × List Person
  | (w, a), .appendWaiting row => (w ++ [row], a)
  | (w, a), .deleteWaiting key => (removeByName w key, a)
  | (w, a), .appendAccepted row => (w, a ++ [row])
  | (w, a), .deleteAccepted key => (w, removeByName a key)

/-- Backend call sequence of the promote handler (waiting_list_app.py
lines 372-375): add_person_to_accepted_list, then
remove_person_from_waiting_list(selected_person). -/
def promoteOps (p : Person) (origBranch targetBranch facility today key :
    String) : List DBOp :=
  [.appendAccepted
     (acceptedToBackend (mkAcceptedPerson p origBranch targetBranch facility
        today)),
   .deleteWaiting key]

/-- Backend call sequence of the demote handler (waiting_list_app.py
lines 699-701): add_person, then remove_person_from_accepted_list. -/
def demoteOps (p : Person) (targetBranch facility key : String) : List DBOp :=
  [.appendWaiting (waitingToBackend (mkWaitingPerson p targetBranch facility)),
   .deleteAccepted key]

/-- Table states observed while running a call sequence, starting state
included. -/
def opStates (s : List Person × List Person) :
    List DBOp → List (List Person × List Person)
  | [] => [s]
  | op :: rest => s :: opStates (applyOp s op) rest

/-- Final table state of a call sequence. -/
def runOps (s : List Person × List Person) (ops : List DBOp) :
    List Person × List Person :=
  ops.foldl applyOp s

/-- The promote operation as its effect on the two tables. -/
def promoteOp (w a : List Person) (p : Person)
    (origBranch targetBranch facility today key : String) :
    List Person × List Person :=
  runOps (w, a) (promoteOps p origBranch targetBranch facility today key)

/-- The demote operation as its effect on the two tables. -/
def demoteOp (w a : List Person) (p : Person)
    (targetBranch facility key : String) : List Person × List Person :=
  runOps (w, a) (demoteOps p targetBranch facility key)

/-! ### Date handling

The app stores dates as YYYY-MM-DD strings (strftime("%Y-%m-%d")).
parseDate embeds pandas.to_datetime with errors="coerce" restricted to
that shape: a dash-separated numeric year, month and day with calendar
validation; anything else coerces to NaT, embedded as none.  Day numbers
use the standard civil-from-date formula so that subtracting two day
numbers gives the day difference the Python timedelta computes. -/

/-- Is the year a Gregorian leap year. -/
def isLeapYear (y : Nat) : Bool :=
  (y % 4 = 0 ∧ y % 100 ≠ 0) ∨ y % 400 = 0

/-- Number of days of a month in a year. -/
def daysInMonth (y m : Nat) : Nat :=
  if m = 2 then (if isLeapYear y then 29 else 28)
  else if m = 4 ∨ m = 6 ∨ m = 9 ∨ m = 11 then 30
  else 31

/-- Day number of a civil date (days since 1970-01-01, negative before). -/
def daysFromCivil (y m d : Int) : Int :=
  let y' := y - (if m ≤ 2 then 1 else 0)
  let era := (if 0 ≤ y' then y' else y' - 399) / 400
  let yoe := y' - era * 400
  let doy := (153 * (m + (if 2 < m then -3 else 9)) + 2) / 5 + d - 1
  let doe := yoe * 365 + yoe / 4 - yoe / 100 + doy
  era * 146097 + doe - 719468

/-- Split a character list on the dash character. -/
def splitOnDash : List Char → List (List Char)
  | [] => [[]]
  | c :: rest =>
      let groups := splitOnDash rest
      if c = '-' then [] :: groups
      else
        match groups with
        | [] => [[c]]
        | g :: gs => (c :: g) :: gs

/-- Parse a nonempty all-digit character group as a number. -/
def digitsToNat : List Char → Option Nat
  | [] => none
  | cs =>
      if cs.all Char.isDigit then
        some (cs.foldl (fun n c => n * 10 + (c.toNat - 48)) 0)
      else none

/-- Parse a YYYY-MM-DD string to its (year, month, day) triple. -/
def parseDateTriple (s : String) : Option (Nat × Nat × Nat) :=
  match (splitOnDash s.data).map digitsToNat with
  | [some y, some m, some d] =>
      if 1 ≤ y ∧ 1 ≤ m ∧ m ≤ 12 ∧ 1 ≤ d ∧ d ≤ daysInMonth y m then
        some (y, m, d)
      else none
  | _ => none

/-- Coercing date parse of a string: day number or none. -/
def parseDate (s : String) : Option Int :=
  (parseDateTriple s).map (fun t => daysFromCivil t.1 t.2.1 t.2.2)

/-- Coercing date parse of a dictionary value. -/
def parseVal (v : Val) : Option Int :=
  match v with
  | .str s => parseDate s
  | _ => none

/-- Mean of a list of integers as a rational (Python float division). -/
def meanInt (l : List Int) : Rat :=
  (l.sum : Rat) / (l.length : Rat)

/-! ### Statistics engine (waiting_list_app.py, calculate_statistics) -/

/-- One entry of the list calculate_statistics returns. -/
structure BranchStats where
  facility : String
  branch : String
  count : Nat
  avgWait : Rat
  dates : List Val
  deriving DecidableEq, Repr

/-- Does a record pass the date filter p.get("תאריך") (truthy lookup). -/
def hasTruthyDate (p : Person) : Bool :=
  match dget p "תאריך" with
  | some v => vtruthy v
  | none => false

/-- Embedding of calculate_statistics for one branch with a nonempty
record list. -/
def branchStatsOf (fac br : String) (people : List Person) (today : Int) :
    BranchStats :=
  let headHasDate :=
    match people with
    | [] => false
    | first :: _ => (dget first "תאריך").isSome
  let withDates := people.filter hasTruthyDate
  let parsed := withDates.filterMap (fun p => (dget p "תאריך").bind parseVal)
  let avg : Rat :=
    if headHasDate && !parsed.isEmpty then
      meanInt (parsed.map (fun d => today - d))
    else 0
  { facility := fac
    branch := br
    count := people.length
    avgWait := avg
    dates := withDates.map (fun p => (dget p "תאריך").getD (.str "")) }

/-- Embedding of calculate_statistics (waiting_list_app.py lines 55-90).
The module-level FACILITIES and FACILITY_BRANCHES configuration tables are
passed as the facs and branchesOf arguments; today stands for
datetime.today(). -/
def calculateStatistics (ds : DataStore) (facs : List String)
    (branchesOf : String → List String) (facility? branch? : Option String)
    (today : Int) : List BranchStats :=
  let facilities := match facility? with | some f => [f] | none => facs
  facilities.flatMap (fun fac =>
    let branches := match branch? with
      | some b => [b]
      | none => (branchesOf fac).filter (fun b => b ≠ "הכל")
    branches.filterMap (fun br =>
      let people := dsGet ds fac br
      if people = [] then none
      else some (branchStatsOf fac br people today)))

/-- Records in scope for the analytics metrics (waiting_list_app.py lines
736-742): the union of every real branch when the selected branch is
הכל, otherwise the one branch. -/
def scopePeople (ds : DataStore) (facility : String)
    (branchesOf : String → List String) (branch : String) : List Person :=
  if branch = "הכל" then
    ((branchesOf facility).filter (fun b => b ≠ "הכל")).flatMap
      (fun b => dsGet ds facility b)
  else dsGet ds facility branch

/-- Does a record answer כן on all five checklist fields
(waiting_list_app.py lines 744-753). -/
def allChecklistYes (p : Person) : Bool :=
  dget p "אישור ועדה" = some (.str "כן") ∧
    dget p "דוח פסיכיאטרי" = some (.str "כן") ∧
    dget p "דוח פסיכוסוציאלי" = some (.str "כן") ∧
    dget p "דוח רפואי" = some (.str "כן") ∧
    dget p "צילום תז" = some (.str "כן")

/-- Is a record urgent-flagged: p.get("מקרה דחוף") in [True, "כן"]
(waiting_list_app.py lines 754-757). -/
def isUrgent (p : Person) : Bool :=
  dget p "מקרה דחוף" = some (.bool true) ∨ dget p "מקרה דחוף" = some (.str "כן")

/-- Metric total_people. -/
def totalPeople (ds : DataStore) (facility : String)
    (branchesOf : String → List String) (branch : String) : Nat :=
  (scopePeople ds facility branchesOf branch).length

/-- Metric total_yes_all. -/
def totalYesAll (ds : DataStore) (facility : String)
    (branchesOf : String → List String) (branch : String) : Nat :=
  (scopePeople ds facility branchesOf branch).countP allChecklistYes

/-- Metric total_urgent_cases. -/
def totalUrgentCases (ds : DataStore) (facility : String)
    (branchesOf : String → List String) (branch : String) : Nat :=
  (scopePeople ds facility branchesOf branch).countP isUrgent

/-- Month key of a raw date value under strict parsing. -/
def monthOf (v : Val) : Option (Nat × Nat) :=
  match v with
  | .str s => (parseDateTriple s).map (fun t => (t.1, t.2.1))
  | _ => none

/-- Insertion-order deduplication of month keys. -/
def dedupMonths (l : List (Nat × Nat)) : List (Nat × Nat) :=
  l.foldl (fun acc x => if x ∈ acc then acc else acc ++ [x]) []

/-- Strict month extraction over a date list: pd.to_datetime without
errors="coerce" raises as soon as one entry fails to parse. -/
def monthsOfDates : List Val → Except Unit (List (Nat × Nat))
  | [] => .ok []
  | v :: rest =>
      match monthOf v with
      | none => .error ()
      | some k => (monthsOfDates rest).map (fun ms => k :: ms)

/-- Embedding of the month-occupancy aggregation (waiting_list_app.py
lines 802-818): pd.to_datetime is called on the collected raw dates
without errors="coerce", so one unparseable date raises; otherwise the
dates are grouped by calendar month and counted. -/
def strictMonthAgg (dates : List Val) : Except Unit (List ((Nat × Nat) × Nat)) :=
  (monthsOfDates dates).map (fun months =>
    (dedupMonths months).map (fun k => (k, months.countP (fun x => x = k))))

/-! ### Remote table reads (SupabaseDBClient) -/

/-- Outcome of one HTTP request: a row list on status ok, an error
status, or a transport failure (requests.get itself raises). -/
inductive HttpResult where
  | ok (rows : List Person)
  | badStatus
  | netFail

/-- Group fetched rows into the data store: for each row whose branch
column holds one of the configured branch names, the converted record is
appended to that branch list, in row order. -/
def storeFromRows (convert : Person → Person) (facility : String)
    (branches : List String) (rows : List Person) : DataStore :=
  rows.foldl (fun ds row =>
    match dget row "branch" with
    | some (.str b) => if b ∈ branches then dsAppend ds facility b (convert row)
                       else ds
    | _ => ds)
    (mkEmptyStore facility branches)

/-- Embedding of SupabaseDBClient.read_waiting_list: a transport failure
propagates as an exception; an error status yields the empty skeleton
store; otherwise the grouped rows. -/
def readWaitingListDB (facility : String) (branches : List String)
    (resp : HttpResult) : Except Unit DataStore :=
  match resp with
  | .netFail => .error ()
  | .badStatus => .ok (mkEmptyStore facility branches)
  | .ok rows => .ok (storeFromRows waitingFromBackend facility branches rows)

/-- Embedding of SupabaseDBClient.read_accepted_list: a transport failure
propagates as an exception; on an error status the function falls off the
else branch and returns None; otherwise the grouped rows. -/
def readAcceptedListDB (facility : String) (branches : List String)
    (resp : HttpResult) : Except Unit (Option DataStore) :=
  match resp with
  | .netFail => .error ()
  | .badStatus => .ok none
  | .ok rows =>
      .ok (some (storeFromRows acceptedFromBackend facility branches rows))

/-! ### Spreadsheet reads (WaitingListDataLoaderClass) -/

/-- A spreadsheet tab: its title, column names in order, and rows as
dictionaries. -/
structure Sheet where
  name : String
  columns : List String
  rows : List Person

/-- Sheet-name normalization used by read_excel_to_data_store:
s.lower().replace(" ", ""). -/
def normSheetName (s : String) : String := s.toLower.replace " " ""

/-- First sheet whose normalized title equals the normalized branch name. -/
def findSheet (sheets : List Sheet) (branch : String) : Option Sheet :=
  sheets.find? (fun sh => normSheetName sh.name = normSheetName branch)

/-- Name-column selection of read_excel_to_data_store: first column whose
trimmed lowercase name is a known alias, else the first column; none when
the sheet has no columns at all (df.columns[0] raises IndexError). -/
def excelNameCol (sh : Sheet) : Option String :=
  match sh.columns.find? (fun c =>
      c.trim.toLower = "שם" ∨ c.trim.toLower = "שם מלא" ∨
        c.trim.toLower = "full name" ∨ c.trim.toLower = "fullname") with
  | some c => some c
  | none => sh.columns.head?

/-- Row conversion of one Excel sheet: keep rows whose name cell is
non-blank after str() and strip(), storing the trimmed name under
שם מלא.  The error case is the IndexError of df.columns[0]. -/
def processExcelSheet (sh : Sheet) : Except Unit (List Person) :=
  match excelNameCol sh with
  | none => .error ()
  | some c =>
      .ok (sh.rows.filterMap (fun row =>
        let nm := pytrim (valToPyStr ((dget row c).getD (.str "")))
        if nm ≠ "" then some (dset row "שם מלא" (.str nm)) else none))

/-- Branch loop of read_excel_to_data_store.  The try block spans the
whole loop, so an exception in one branch abandons the remaining branches
and the partially filled store is returned by the except handler.  The
app passes add_to_waitlist as the append callback; since every stored
name is non-blank after trimming, the callback always appends, which the
direct dsAppend reproduces. -/
def readExcelBranches (sheets : List Sheet) (facility : String) :
    List String → DataStore → DataStore
  | [], ds => ds
  | b :: rest, ds =>
      if b = "הכל" then readExcelBranches sheets facility rest ds
      else
        match findSheet sheets b with
        | none => readExcelBranches sheets facility rest ds
        | some sh =>
            match processExcelSheet sh with
            | .error () => ds
            | .ok recs =>
                readExcelBranches sheets facility rest
                  (recs.foldl (fun d r => dsAppend d facility b r) ds)

/-- Embedding of read_excel_to_data_store (WaitingListDataLoader.py lines
73-108).  The file argument is none when pd.ExcelFile raises (missing or
unreadable file); that exception is caught and the empty skeleton store
is returned. -/
def readExcelToDataStore (file : Option (List Sheet)) (facility : String)
    (branches : List String) : DataStore :=
  let base := mkEmptyStore facility branches
  match file with
  | none => base
  | some sheets => readExcelBranches sheets facility branches base

/-- Name-column selection of read_google_sheet_to_data_store (alias list
includes the English name column). -/
def gsheetNameCol (sh : Sheet) : Option String :=
  match sh.columns.find? (fun c =>
      c.trim.toLower = "name" ∨ c.trim.toLower = "שם" ∨
        c.trim.toLower = "full name" ∨ c.trim.toLower = "fullname") with
  | some c => some c
  | none => sh.columns.head?

/-- Embedding of read_google_sheet_to_data_store (WaitingListDataLoader.py
lines 37-71).  Each branch is fetched inside its own try block: a 400
status, a transport failure or a parse error only skips that branch
(fetch gid = none), leaving its list empty. -/
def readGoogleSheetToDataStore (fetch : String → Option Sheet)
    (facility : String) (branchGids : List (String × String)) : DataStore :=
  branchGids.foldl (fun ds bg =>
    match fetch bg.2 with
    | none => ds
    | some sh =>
        match gsheetNameCol sh with
        | none => ds
        | some c =>
            (sh.rows.filterMap (fun row =>
              let nm := pytrim (valToPyStr ((dget row c).getD (.str "")))
              if nm ≠ "" then some (dset row "name" (.str nm)) else none)).foldl
              (fun d r => dsAppend d facility bg.1 r) ds)
    (mkEmptyStore facility (branchGids.map (fun bg => bg.1)))

/-! ### Helper lemmas -/

/-- First pair of a translation table whose second component matches,
returning the first component. -/
def sndLookup : List (String × String) → String → Option String
  | [], _ => none
  | (k, v) :: rest, key => if v = key then some k else sndLookup rest key

theorem mLookup_mem {m : List (String × String)} {k v : String}
    (h : mLookup m k = some v) : (k, v) ∈ m := by
  induction m with
  | nil => simp [mLookup] at h
  | cons hd tl ih =>
      obtain ⟨k0, v0⟩ := hd
      by_cases hk : k0 = k
      · subst hk
        rw [mLookup, if_pos rfl] at h
        obtain rfl : v0 = v := Option.some.inj h
        exact List.mem_cons_self _ _
      · rw [mLookup, if_neg hk] at h
        exact List.mem_cons_of_mem _ (ih h)

theorem mLookup_of_mem_nodup {m : List (String × String)} {k v : String}
    (hmem : (k, v) ∈ m) (hnd : (m.map Prod.fst).Nodup) :
    mLookup m k = some v := by
  induction m with
  | nil => simp at hmem
  | cons hd tl ih =>
      obtain ⟨k0, v0⟩ := hd
      rw [List.map_cons, List.nodup_cons] at hnd
      by_cases hk : k0 = k
      · subst hk
        have hv : v0 = v := by
          rcases List.mem_cons.mp hmem with heq | htl
          · exact (congrArg Prod.snd heq).symm
          · exact absurd (List.mem_map_of_mem Prod.fst htl) hnd.1
        rw [mLookup, if_pos rfl, hv]
      · have htl : (k, v) ∈ tl := by
          rcases List.mem_cons.mp hmem with heq | htl
          · exact absurd (congrArg Prod.fst heq).symm hk
          · exact htl
        rw [mLookup, if_neg hk]
        exact ih htl hnd.2

theorem sndLookup_of_mem_nodup {m : List (String × String)} {k v : String}
    (hmem : (k, v) ∈ m) (hnd : (m.map Prod.snd).Nodup) :
    sndLookup m v = some k := by
  induction m with
  | nil => simp at hmem
  | cons hd tl ih =>
      obtain ⟨k0, v0⟩ := hd
      rw [List.map_cons, List.nodup_cons] at hnd
      by_cases hv : v0 = v
      · subst hv
        have hk : k0 = k := by
          rcases List.mem_cons.mp hmem with heq | htl
          · exact (congrArg Prod.fst heq).symm
          · exact absurd (List.mem_map_of_mem Prod.snd htl) hnd.1
        rw [sndLookup, if_pos rfl, hk]
      · have htl : (k, v) ∈ tl := by
          rcases List.mem_cons.mp hmem with heq | htl
          · exact absurd (congrArg Prod.snd heq).symm hv
          · exact htl
        rw [sndLookup, if_neg hv]
        exact ih htl hnd.2

theorem fst_eq_of_snd_mem_nodup {m : List (String × String)} {k v : String}
    (hnd : (m.map Prod.snd).Nodup) (hmem : (k, v) ∈ m) :
    ∀ p ∈ m, p.2 = v → p.1 = k := by
  induction m with
  | nil => simp at hmem
  | cons hd tl ih =>
      obtain ⟨k0, v0⟩ := hd
      rw [List.map_cons, List.nodup_cons] at hnd
      intro p hp hpv
      rcases List.mem_cons.mp hmem with heq | htl
      · have hk : k0 = k := (congrArg Prod.fst heq).symm
        have hv : v0 = v := (congrArg Prod.snd heq).symm
        rcases List.mem_cons.mp hp with hpeq | hptl
        · rw [hpeq]
          exact hk
        · exfalso
          apply hnd.1
          have := List.mem_map_of_mem Prod.snd hptl
          rwa [hpv, ← hv] at this
      · rcases List.mem_cons.mp hp with hpeq | hptl
        · exfalso
          apply hnd.1
          have hm2 : v ∈ List.map Prod.snd tl := List.mem_map_of_mem Prod.snd htl
          have hpv0 : v0 = v := by rw [← hpv, hpeq]
          rwa [← hpv0] at hm2
        · exact ih hnd.2 htl p hptl hpv

theorem dget_toBackendWith {m : List (String × String)} {h en : String}
    (hm : mLookup m h = some en)
    (hinj : ∀ p ∈ m, p.2 = en → p.1 = h) (r : Person) :
    dget (toBackendWith m r) en = dget r h := by
  induction r with
  | nil => rfl
  | cons hd tl ih =>
      obtain ⟨k, v⟩ := hd
      show dget (List.filterMap _ ((k, v) :: tl)) en = _
      rw [List.filterMap_cons]
      cases hmk : mLookup m k with
      | none =>
          have hk : k ≠ h := by
            intro h0
            rw [h0, hm] at hmk
            exact Option.noConfusion hmk
          simp only [Option.map_none']
          have hr : dget ((k, v) :: tl) h = dget tl h := by
            rw [dget, if_neg hk]
          rw [hr, ← ih]
          rfl
      | some en' =>
          simp only [Option.map_some']
          by_cases hk : k = h
          · subst hk
            rw [hm] at hmk
            obtain rfl : en = en' := Option.some.inj hmk
            show dget ((en, v) :: _) en = dget ((k, v) :: tl) k
            rw [dget, if_pos rfl, dget, if_pos rfl]
          · have hen' : en' ≠ en := by
              intro h0
              subst h0
              exact hk (hinj (k, en') (mLookup_mem hmk) rfl)
            show dget ((en', v) :: _) en = dget ((k, v) :: tl) h
            rw [dget, if_neg hen', dget, if_neg hk, ← ih]
            rfl

theorem dget_fromBackendWith {m : List (String × String)} {h en : String}
    (hs : sndLookup m h = some en) (hne : h ≠ "מרחב") (row : Person) :
    dget (fromBackendWith m row) h = some ((dget row en).getD (.str "")) := by
  induction m with
  | nil => simp [sndLookup] at hs
  | cons hd tl ih =>
      obtain ⟨k, v⟩ := hd
      show dget ((List.map _ ((k, v) :: tl)).filter _) h = _
      rw [List.map_cons, List.filter_cons]
      by_cases hv : v = h
      · subst hv
        rw [sndLookup, if_pos rfl] at hs
        obtain rfl : k = en := Option.some.inj hs
        rw [if_pos (by simpa using hne)]
        show dget ((v, _) :: _) v = _
        rw [dget, if_pos rfl]
      · have hs' : sndLookup tl h = some en := by
          rw [sndLookup, if_neg hv] at hs
          exact hs
        by_cases hvm : v = "מרחב"
        · rw [if_neg (by simp [hvm])]
          exact ih hs'
        · rw [if_pos (by simpa using hvm)]
          show dget ((v, _) :: _) h = _
          rw [dget, if_neg hv]
          exact ih hs'

theorem countP_flatMap (f : String → List Person) (q : Person → Bool) :
    ∀ l : List String, ((l.flatMap f).countP q) =
      (l.map (fun a => (f a).countP q)).sum := by
  intro l
  induction l with
  | nil => rfl
  | cons hd tl ih =>
      rw [List.flatMap_cons, List.countP_append, List.map_cons, List.sum_cons,
        ih]

theorem length_flatMap (f : String → List Person) :
    ∀ l : List String, ((l.flatMap f).length) =
      (l.map (fun a => (f a).length)).sum := by
  intro l
  induction l with
  | nil => rfl
  | cons hd tl ih =>
      rw [List.flatMap_cons, List.length_append, List.map_cons, List.sum_cons,
        ih]

theorem dsAppend_cons (hd : String × List (String × List Person))
    (tl : DataStore) (f b : String) (p : Person) :
    dsAppend (hd :: tl) f b p =
      (if hd.1 = f then
        (hd.1, hd.2.map (fun q => if q.1 = b then (q.1, q.2 ++ [p]) else q))
      else hd) :: dsAppend tl f b p := rfl

theorem dsFacility_cons (hd : String × List (String × List Person))
    (tl : DataStore) (f' : String) :
    dsFacility (hd :: tl) f' =
      if hd.1 = f' then some hd.2 else dsFacility tl f' := by
  by_cases h : hd.1 = f'
  · rw [if_pos h, dsFacility, List.find?_cons_of_pos _ (by simpa using h)]
    rfl
  · rw [if_neg h, dsFacility, List.find?_cons_of_neg _ (by simpa using h)]
    rfl

theorem branch_map_fst (m : List (String × List Person)) (b : String)
    (p : Person) :
    (m.map (fun q => if q.1 = b then (q.1, q.2 ++ [p]) else q)).map Prod.fst =
      m.map Prod.fst := by
  induction m with
  | nil => rfl
  | cons hd tl ih =>
      by_cases h : hd.1 = b <;> simp [h, ih]

theorem dsFacility_dsAppend_ne {f' f : String} (ds : DataStore)
    (b : String) (p : Person) (hne : f' ≠ f) :
    dsFacility (dsAppend ds f b p) f' = dsFacility ds f' := by
  induction ds with
  | nil => rfl
  | cons hd tl ih =>
      rw [dsAppend_cons, dsFacility_cons, dsFacility_cons]
      by_cases h : hd.1 = f'
      · have hf : ¬ hd.1 = f := by
          rw [h]
          exact hne
        rw [if_neg hf, if_pos h, if_pos h]
      · by_cases hf : hd.1 = f
        · rw [if_pos hf, if_neg (show ¬ (hd.1, _).1 = f' by simpa using h),
            if_neg h]
          exact ih
        · rw [if_neg hf, if_neg h, if_neg h]
          exact ih

theorem dsFacility_dsAppend_eq (ds : DataStore) (f b : String) (p : Person) :
    dsFacility (dsAppend ds f b p) f =
      (dsFacility ds f).map
        (fun m => m.map (fun q => if q.1 = b then (q.1, q.2 ++ [p]) else q)) := by
  induction ds with
  | nil => rfl
  | cons hd tl ih =>
      rw [dsAppend_cons, dsFacility_cons, dsFacility_cons]
      by_cases h : hd.1 = f
      · rw [if_pos h, if_pos h,
          if_pos (show ((hd.1, _) : String × List (String × List Person)).1 = f
            by simpa using h)]
        rfl
      · rw [if_neg h, if_neg h, if_neg h]
        exact ih

theorem dsBranchKeys_dsAppend (ds : DataStore) (f b : String) (p : Person)
    (f' : String) :
    dsBranchKeys (dsAppend ds f b p) f' = dsBranchKeys ds f' := by
  by_cases hf : f' = f
  · subst hf
    rw [dsBranchKeys, dsBranchKeys, dsFacility_dsAppend_eq]
    cases dsFacility ds f' with
    | none => rfl
    | some m =>
        rw [Option.map_some', Option.getD_some, Option.getD_some]
        exact branch_map_fst m b p
  · rw [dsBranchKeys, dsBranchKeys, dsFacility_dsAppend_ne ds b p hf]

theorem bfind_cons (hd : String × List Person) (tl : List (String × List Person))
    (b : String) :
    List.find? (fun q => q.1 = b) (hd :: tl) =
      if hd.1 = b then some hd else List.find? (fun q => q.1 = b) tl := by
  by_cases h : hd.1 = b
  · rw [if_pos h, List.find?_cons_of_pos _ (by simpa using h)]
  · rw [if_neg h, List.find?_cons_of_neg _ (by simpa using h)]

theorem branch_find_append (m : List (String × List Person)) (b : String)
    (p : Person) (l : List Person)
    (hfind : m.find? (fun q => q.1 = b) = some (b, l)) :
    (m.map (fun q => if q.1 = b then (q.1, q.2 ++ [p]) else q)).find?
        (fun q => q.1 = b) = some (b, l ++ [p]) := by
  induction m with
  | nil => simp at hfind
  | cons hd tl ih =>
      rw [bfind_cons] at hfind
      rw [List.map_cons, bfind_cons]
      by_cases h : hd.1 = b
      · rw [if_pos h] at hfind
        have heq := Option.some.inj hfind
        subst heq
        simp
      · rw [if_neg h] at hfind
        rw [if_neg h, if_neg h]
        exact ih hfind

theorem find?_key_of_mem_fst (m : List (String × List Person)) (b : String)
    (hb : b ∈ m.map Prod.fst) :
    ∃ l, m.find? (fun q => q.1 = b) = some (b, l) := by
  induction m with
  | nil => simp at hb
  | cons hd tl ih =>
      rw [bfind_cons]
      by_cases h : hd.1 = b
      · refine ⟨hd.2, ?_⟩
        rw [if_pos h]
        rw [show hd = (b, hd.2) from Prod.ext h rfl]
      · rw [List.map_cons] at hb
        rcases List.mem_cons.mp hb with heq | htl
        · exact absurd heq.symm h
        · obtain ⟨l, hl⟩ := ih htl
          refine ⟨l, ?_⟩
          rw [if_neg h]
          exact hl

theorem dsGet_dsAppend (ds : DataStore) (f b : String) (p : Person)
    (hb : b ∈ dsBranchKeys ds f) :
    dsGet (dsAppend ds f b p) f b = dsGet ds f b ++ [p] := by
  rw [dsBranchKeys] at hb
  cases hm : dsFacility ds f with
  | none =>
      rw [hm] at hb
      simp at hb
  | some m =>
      rw [hm] at hb
      rw [Option.getD_some] at hb
      have hb' : b ∈ m.map Prod.fst := by
        simpa using hb
      obtain ⟨l, hl⟩ := find?_key_of_mem_fst m b hb'
      rw [dsGet, dsGet, dsFacility_dsAppend_eq, hm, Option.map_some',
        Option.getD_some, Option.getD_some, branch_find_append m b p l hl, hl]
      rfl

theorem dsBranchKeys_foldl_dsAppend (fac b f' : String) :
    ∀ (recs : List Person) (ds : DataStore),
      dsBranchKeys (recs.foldl (fun d r => dsAppend d fac b r) ds) f' =
        dsBranchKeys ds f' := by
  intro recs
  induction recs with
  | nil => intro ds; rfl
  | cons r rest ih =>
      intro ds
      rw [List.foldl_cons, ih, dsBranchKeys_dsAppend]

theorem dsBranchKeys_foldl {α : Type} (step : DataStore → α → DataStore)
    (hstep : ∀ ds x f', dsBranchKeys (step ds x) f' = dsBranchKeys ds f') :
    ∀ (l : List α) (ds : DataStore) (f' : String),
      dsBranchKeys (l.foldl step ds) f' = dsBranchKeys ds f' := by
  intro l
  induction l with
  | nil => intro ds f'; rfl
  | cons x rest ih =>
      intro ds f'
      rw [List.foldl_cons, ih, hstep]

theorem dsBranchKeys_mkEmptyStore (fac : String) (branches : List String) :
    dsBranchKeys (mkEmptyStore fac branches) fac = branches := by
  rw [dsBranchKeys, mkEmptyStore, dsFacility]
  rw [List.find?_cons_of_pos _ (by simp)]
  simp only [Option.map_some', Option.getD_some, List.map_map]
  have hcomp : ((fun p => p.1) ∘ fun b : String => (b, ([] : List Person))) =
      id := rfl
  rw [hcomp, List.map_id]

theorem dsBranchKeys_readExcelBranches (sheets : List Sheet) (fac f' : String) :
    ∀ (bl : List String) (ds : DataStore),
      dsBranchKeys (readExcelBranches sheets fac bl ds) f' =
        dsBranchKeys ds f' := by
  intro bl
  induction bl with
  | nil => intro ds; rfl
  | cons b rest ih =>
      intro ds
      show dsBranchKeys
        (if b = "הכל" then readExcelBranches sheets fac rest ds
         else
           match findSheet sheets b with
           | none => readExcelBranches sheets fac rest ds
           | some sh =>
               match processExcelSheet sh with
               | .error () => ds
               | .ok recs =>
                   readExcelBranches sheets fac rest
                     (recs.foldl (fun d r => dsAppend d fac b r) ds)) f' = _
      by_cases hb : b = "הכל"
      · rw [if_pos hb]
        exact ih ds
      · rw [if_neg hb]
        cases hfs : findSheet sheets b with
        | none => exact ih ds
        | some sh =>
            show dsBranchKeys
              (match processExcelSheet sh with
               | .error () => ds
               | .ok recs =>
                   readExcelBranches sheets fac rest
                     (recs.foldl (fun d r => dsAppend d fac b r) ds)) f' = _
            cases hps : processExcelSheet sh with
            | error e => cases e; rfl
            | ok recs =>
                show dsBranchKeys (readExcelBranches sheets fac rest
                  (recs.foldl (fun d r => dsAppend d fac b r) ds)) f' = _
                rw [ih, dsBranchKeys_foldl_dsAppend]

theorem dsBranchKeys_readExcel (file : Option (List Sheet)) (fac : String)
    (branches : List String) :
    dsBranchKeys (readExcelToDataStore file fac branches) fac = branches := by
  cases file with
  | none => exact dsBranchKeys_mkEmptyStore fac branches
  | some sheets =>
      show dsBranchKeys (readExcelBranches sheets fac branches
        (mkEmptyStore fac branches)) fac = branches
      rw [dsBranchKeys_readExcelBranches, dsBranchKeys_mkEmptyStore]

theorem dsBranchKeys_storeFromRows (convert : Person → Person) (fac : String)
    (branches : List String) (rows : List Person) (f' : String) :
    dsBranchKeys (storeFromRows convert fac branches rows) f' =
      dsBranchKeys (mkEmptyStore fac branches) f' := by
  apply dsBranchKeys_foldl
  intro ds row g
  cases hv : dget row "branch" with
  | none => rfl
  | some v =>
      cases v with
      | str b =>
          by_cases hmem : b ∈ branches
          · simp only [hv, if_pos hmem]
            exact dsBranchKeys_dsAppend ds fac b (convert row) g
          · simp only [hv, if_neg hmem]
      | bool b => rfl
      | int n => rfl

theorem dsBranchKeys_readGoogleSheet (fetch : String → Option Sheet)
    (fac : String) (branchGids : List (String × String)) (f' : String) :
    dsBranchKeys (readGoogleSheetToDataStore fetch fac branchGids) f' =
      dsBranchKeys (mkEmptyStore fac (branchGids.map (fun bg => bg.1))) f' := by
  apply dsBranchKeys_foldl
  intro ds bg g
  cases hfs : fetch bg.2 with
  | none => rfl
  | some sh =>
      show dsBranchKeys
        (match gsheetNameCol sh with
         | none => ds
         | some c =>
             (sh.rows.filterMap (fun row =>
               let nm := pytrim (valToPyStr ((dget row c).getD (.str "")))
               if nm ≠ "" then some (dset row "name" (.str nm))
               else none)).foldl (fun d r => dsAppend d fac bg.1 r) ds) g = _
      cases hnc : gsheetNameCol sh with
      | none => rfl
      | some c =>
          show dsBranchKeys ((sh.rows.filterMap (fun row =>
            let nm := pytrim (valToPyStr ((dget row c).getD (.str "")))
            if nm ≠ "" then some (dset row "name" (.str nm))
            else none)).foldl (fun d r => dsAppend d fac bg.1 r) ds) g = _
          rw [dsBranchKeys_foldl_dsAppend]

theorem parseVal_of_not_truthy {v : Val} (h : vtruthy v = false) :
    parseVal v = none := by
  cases v with
  | str s =>
      have hs : s = "" := by simpa [vtruthy] using h
      subst hs
      decide
  | bool b => rfl
  | int n => rfl

theorem filterMap_filter_of_none {α β : Type} (q : α → Bool)
    (f : α → Option β) (hf : ∀ a, q a = false → f a = none) :
    ∀ l : List α, (l.filter q).filterMap f = l.filterMap f := by
  intro l
  induction l with
  | nil => rfl
  | cons a t ih =>
      rw [List.filter_cons]
      by_cases h : q a
      · rw [if_pos (by simpa using h), List.filterMap_cons,
          List.filterMap_cons, ih]
      · rw [if_neg (by simpa using h), ih, List.filterMap_cons,
          hf a (by simpa using h)]

theorem filterMap_truthy_parse (people : List Person) :
    (people.filter hasTruthyDate).filterMap
        (fun p => (dget p "תאריך").bind parseVal) =
      people.filterMap (fun p => (dget p "תאריך").bind parseVal) := by
  apply filterMap_filter_of_none
  intro p hp
  cases hd : dget p "תאריך" with
  | none => rfl
  | some v =>
      rw [hasTruthyDate, hd] at hp
      show parseVal v = none
      exact parseVal_of_not_truthy hp

theorem monthsOfDates_error {dates : List Val}
    (hex : ∃ v ∈ dates, monthOf v = none) :
    monthsOfDates dates = .error () := by
  induction dates with
  | nil => simp at hex
  | cons d t ih =>
      obtain ⟨v, hv, hnone⟩ := hex
      cases hm : monthOf d with
      | none => simp [monthsOfDates, hm]
      | some k =>
          rcases List.mem_cons.mp hv with rfl | htl
          · rw [hm] at hnone
            exact Option.noConfusion hnone
          · simp only [monthsOfDates, hm]
            rw [ih ⟨v, htl, hnone⟩]
            rfl

theorem monthsOfDates_ok {dates : List Val}
    (hall : ∀ v ∈ dates, (monthOf v).isSome) :
    ∃ ms, monthsOfDates dates = .ok ms := by
  induction dates with
  | nil => exact ⟨[], rfl⟩
  | cons d t ih =>
      cases hm : monthOf d with
      | none =>
          have := hall d (List.mem_cons_self d t)
          rw [hm] at this
          simp at this
      | some k =>
          obtain ⟨ms, hms⟩ := ih (fun v hv => hall v (List.mem_cons_of_mem d hv))
          refine ⟨k :: ms, ?_⟩
          simp [monthsOfDates, hm, hms, Except.map]

/-! ### Claim theorems -/

/-- C10: for every accepted-list record moved back by the demote-to-waiting
operation, the urgent-case flag of the resulting waiting-list record is
always False, regardless of the urgent-case value carried by the record
being moved: the flag is recomputed from the waiting_person dictionary,
which never contains the urgent-case key.  Stated both on the constructed
canonical record and on the posted backend row. -/
theorem C10_demote_urgent_always_false :
    ∀ (p : Person) (targetBranch facility : String),
      dget (mkWaitingPerson p targetBranch facility) "מקרה דחוף" =
        some (.bool false) ∧
      dget (waitingToBackend (mkWaitingPerson p targetBranch facility))
        "urgent_case" = some (.bool false) := by
  intro p tb fac
  exact ⟨rfl, rfl⟩

/-- C9: the demote-to-waiting operation constructs the new waiting-list
record with its waiting date copied from the accepted record, taking the
date-added-to-waiting field תאריך המתנה and falling back to the plain date
field תאריך when that key is absent; it stamps the chosen target branch;
the posted backend row carries the same date and branch; and the composite
issues the append to the waiting-list backend followed by the name-keyed
delete from the accepted-list backend. -/
theorem C9_demote_semantics :
    ∀ (w a : List Person) (p : Person) (targetBranch facility key : String),
      demoteOps p targetBranch facility key =
        [DBOp.appendWaiting
           (waitingToBackend (mkWaitingPerson p targetBranch facility)),
         DBOp.deleteAccepted key] ∧
      demoteOp w a p targetBranch facility key =
        (w ++ [waitingToBackend (mkWaitingPerson p targetBranch facility)],
         removeByName a key) ∧
      dget (mkWaitingPerson p targetBranch facility) "תאריך" =
        some ((dget p "תאריך המתנה").getD ((dget p "תאריך").getD (.str ""))) ∧
      dget (mkWaitingPerson p targetBranch facility) "סניף" =
        some (.str targetBranch) ∧
      dget (waitingToBackend (mkWaitingPerson p targetBranch facility))
          "date_added" =
        some ((dget p "תאריך המתנה").getD ((dget p "תאריך").getD (.str ""))) ∧
      dget (waitingToBackend (mkWaitingPerson p targetBranch facility))
          "branch" = some (.str targetBranch) := by
  intro w a p tb fac key
  exact ⟨rfl, rfl, rfl, rfl, rfl, rfl⟩

/-- C2 counterexample: the round-trip property fails on the urgent-case
field of accepted-list records.  For a record carrying מקרה דחוף = כן,
translating to the AcceptedList backend schema and back yields the empty
string for that field, because the to-backend map of
add_person_to_accepted_list has no urgent-case entry while the from-backend
map of read_accepted_list does. -/
theorem C2_urgent_roundtrip_counterexample :
    dget [("שם מלא", Val.str "Avi"), ("מקרה דחוף", Val.str "כן")]
        "מקרה דחוף" = some (Val.str "כן") ∧
    dget (acceptedFromBackend (acceptedToBackend
        [("שם מלא", Val.str "Avi"), ("מקרה דחוף", Val.str "כן")]))
        "מקרה דחוף" = some (Val.str "") ∧
    Val.str "" ≠ Val.str "כן" := by
  decide

/-- C2 amended: for every field that occurs in both the to-backend and the
from-backend translation tables of a backend list, other than the facility
field מרחב (which the from-backend conversion pops) and therefore other
than the urgent-case field of the accepted list (which occurs only in the
from-backend direction), the round trip preserves the value stored in the
record. -/
theorem C2_roundtrip_amended :
    ∀ (h en : String) (r : Person) (v : Val), h ≠ "מרחב" → dget r h = some v →
      ((h, en) ∈ waitingFieldMapTo →
        dget (waitingFromBackend (waitingToBackend r)) h = some v) ∧
      ((h, en) ∈ acceptedFieldMapTo →
        dget (acceptedFromBackend (acceptedToBackend r)) h = some v) := by
  intro h en r v hne hv
  constructor
  · intro hmem
    have h1 : mLookup waitingFieldMapTo h = some en :=
      mLookup_of_mem_nodup hmem (by decide)
    have h2 : (en, h) ∈ waitingFieldMapFrom := by
      have hall : ∀ p ∈ waitingFieldMapTo, (p.2, p.1) ∈ waitingFieldMapFrom :=
        by decide
      exact hall (h, en) hmem
    have h3 : sndLookup waitingFieldMapFrom h = some en :=
      sndLookup_of_mem_nodup h2 (by decide)
    have h4 : ∀ p ∈ waitingFieldMapTo, p.2 = en → p.1 = h :=
      fst_eq_of_snd_mem_nodup (by decide) hmem
    rw [waitingFromBackend, dget_fromBackendWith h3 hne, waitingToBackend,
      dget_toBackendWith h1 h4, hv]
    rfl
  · intro hmem
    have h1 : mLookup acceptedFieldMapTo h = some en :=
      mLookup_of_mem_nodup hmem (by decide)
    have h2 : (en, h) ∈ acceptedFieldMapFrom := by
      have hall : ∀ p ∈ acceptedFieldMapTo, (p.2, p.1) ∈ acceptedFieldMapFrom :=
        by decide
      exact hall (h, en) hmem
    have h3 : sndLookup acceptedFieldMapFrom h = some en :=
      sndLookup_of_mem_nodup h2 (by decide)
    have h4 : ∀ p ∈ acceptedFieldMapTo, p.2 = en → p.1 = h :=
      fst_eq_of_snd_mem_nodup (by decide) hmem
    rw [acceptedFromBackend, dget_fromBackendWith h3 hne, acceptedToBackend,
      dget_toBackendWith h1 h4, hv]
    rfl

/-- C2 witness: the amended round trip evaluated on a concrete record at
the full-name field of the waiting list. -/
theorem C2_roundtrip_amended_witness :
    dget (waitingFromBackend (waitingToBackend [("שם מלא", Val.str "Dana")]))
      "שם מלא" = some (Val.str "Dana") :=
  (C2_roundtrip_amended "שם מלא" "name" [("שם מלא", Val.str "Dana")]
    (Val.str "Dana") (by decide) (by decide)).1 (by decide)

theorem nameInTable_append_right (t : List Person) (row : Person)
    (key : String) (h : dget row "name" = some (.str key)) :
    nameInTable (t ++ [row]) key = true := by
  rw [nameInTable, List.any_append]
  simp [h]

/-- C5: in both composite moves the append to the destination backend is
issued strictly before the name-keyed delete from the source backend (the
call lists are exactly append-then-delete), and consequently, when the
record is present in the source table before the move, at each of the
three observable table states (before, between the two calls, after) the
name is present in at least one of the two tables. -/
theorem C5_append_before_delete :
    ∀ (w a : List Person) (p : Person)
      (origBranch targetBranch facility today key : String),
      dget p "שם מלא" = some (.str key) →
      (nameInTable w key = true →
        promoteOps p origBranch targetBranch facility today key =
          [DBOp.appendAccepted (acceptedToBackend
             (mkAcceptedPerson p origBranch targetBranch facility today)),
           DBOp.deleteWaiting key] ∧
        ∀ s ∈ opStates (w, a)
            (promoteOps p origBranch targetBranch facility today key),
          nameInTable s.1 key = true ∨ nameInTable s.2 key = true) ∧
      (nameInTable a key = true →
        demoteOps p targetBranch facility key =
          [DBOp.appendWaiting (waitingToBackend
             (mkWaitingPerson p targetBranch facility)),
           DBOp.deleteAccepted key] ∧
        ∀ s ∈ opStates (w, a) (demoteOps p targetBranch facility key),
          nameInTable s.1 key = true ∨ nameInTable s.2 key = true) := by
  intro w a p ob tb fac today key hname
  have haccname : dget (acceptedToBackend
      (mkAcceptedPerson p ob tb fac today)) "name" = some (.str key) := by
    have hstep : dget (acceptedToBackend
        (mkAcceptedPerson p ob tb fac today)) "name" =
        some ((dget p "שם מלא").getD (.str "")) := rfl
    rw [hstep, hname]
    rfl
  have hwname : dget (waitingToBackend
      (mkWaitingPerson p tb fac)) "name" = some (.str key) := by
    have hstep : dget (waitingToBackend (mkWaitingPerson p tb fac)) "name" =
        some ((dget p "שם מלא").getD (.str "")) := rfl
    rw [hstep, hname]
    rfl
  constructor
  · intro hw
    refine ⟨rfl, ?_⟩
    intro s hs
    have hstates : opStates (w, a) (promoteOps p ob tb fac today key) =
        [(w, a),
         (w, a ++ [acceptedToBackend (mkAcceptedPerson p ob tb fac today)]),
         (removeByName w key,
          a ++ [acceptedToBackend (mkAcceptedPerson p ob tb fac today)])] := rfl
    rw [hstates] at hs
    simp only [List.mem_cons, List.not_mem_nil, or_false] at hs
    rcases hs with rfl | rfl | rfl
    · exact Or.inl hw
    · exact Or.inl hw
    · exact Or.inr (nameInTable_append_right a _ key haccname)
  · intro ha
    refine ⟨rfl, ?_⟩
    intro s hs
    have hstates : opStates (w, a) (demoteOps p tb fac key) =
        [(w, a),
         (w ++ [waitingToBackend (mkWaitingPerson p tb fac)], a),
         (w ++ [waitingToBackend (mkWaitingPerson p tb fac)],
          removeByName a key)] := rfl
    rw [hstates] at hs
    simp only [List.mem_cons, List.not_mem_nil, or_false] at hs
    rcases hs with rfl | rfl | rfl
    · exact Or.inr ha
    · exact Or.inr ha
    · exact Or.inl (nameInTable_append_right w _ key hwname)

/-- C5 witness: the presence property evaluated at the state reached
after both calls of a concrete promote, where the name must still be
found in one of the two tables. -/
theorem C5_append_before_delete_witness :
    nameInTable (removeByName
        [[("name", Val.str "Avi"), ("branch", Val.str "A")]] "Avi") "Avi" =
      true ∨
    nameInTable ([] ++ [acceptedToBackend (mkAcceptedPerson
        [("שם מלא", Val.str "Avi")] "A" "B" "X" "2024-01-02")]) "Avi" =
      true :=
  ((C5_append_before_delete
      [[("name", Val.str "Avi"), ("branch", Val.str "A")]] []
      [("שם מלא", Val.str "Avi")] "A" "B" "X" "2024-01-02" "Avi"
      (by decide)).1 (by decide)).2
    (removeByName [[("name", Val.str "Avi"), ("branch", Val.str "A")]] "Avi",
     [] ++ [acceptedToBackend (mkAcceptedPerson
       [("שם מלא", Val.str "Avi")] "A" "B" "X" "2024-01-02")])
    (by decide)

/-- C1 counterexample: when the promoted name already occurs in the
accepted table in some other branch, the name ends up present in two
distinct branches of the accepted list after the move, refuting the
claim that it is present in exactly one branch.  Here Avi sits in the
waiting table (branch A) and already sits in the accepted table in branch
B; promoting Avi into target branch A leaves accepted rows for Avi in
both branch B and branch A. -/
theorem C1_promote_duplicate_counterexample :
    (∃ r ∈ (promoteOp [[("name", Val.str "Avi"), ("branch", Val.str "A")]]
        [[("name", Val.str "Avi"), ("branch", Val.str "B")]]
        [("שם מלא", Val.str "Avi"), ("סניף", Val.str "A")]
        "A" "A" "X" "2024-01-02" "Avi").2,
      dget r "name" = some (Val.str "Avi") ∧
        dget r "branch" = some (Val.str "B")) ∧
    (∃ r ∈ (promoteOp [[("name", Val.str "Avi"), ("branch", Val.str "A")]]
        [[("name", Val.str "Avi"), ("branch", Val.str "B")]]
        [("שם מלא", Val.str "Avi"), ("סניף", Val.str "A")]
        "A" "A" "X" "2024-01-02" "Avi").2,
      dget r "name" = some (Val.str "Avi") ∧
        dget r "branch" = some (Val.str "A")) ∧
    ("B" : String) ≠ "A" := by
  decide

/-- C1 amended: provided the promoted name does not already occur in the
accepted table, the promote operation leaves the name absent from the
waiting-list table (hence from every branch listing derived from it) and
present in the accepted table exactly in the chosen target branch: some
row with that name exists, and every row with that name carries the
target branch tag. -/
theorem C1_promote_no_duplication :
    ∀ (w a : List Person) (p : Person)
      (origBranch targetBranch facility today key : String),
      dget p "שם מלא" = some (.str key) →
      (∀ r ∈ a, ¬ dget r "name" = some (.str key)) →
      (∀ r ∈ (promoteOp w a p origBranch targetBranch facility today key).1,
          ¬ dget r "name" = some (.str key)) ∧
      (∃ r ∈ (promoteOp w a p origBranch targetBranch facility today key).2,
          dget r "name" = some (.str key)) ∧
      (∀ r ∈ (promoteOp w a p origBranch targetBranch facility today key).2,
          dget r "name" = some (.str key) →
            dget r "branch" = some (.str targetBranch)) := by
  intro w a p ob tb fac today key hname hA
  have haccname : dget (acceptedToBackend
      (mkAcceptedPerson p ob tb fac today)) "name" = some (.str key) := by
    have hstep : dget (acceptedToBackend
        (mkAcceptedPerson p ob tb fac today)) "name" =
        some ((dget p "שם מלא").getD (.str "")) := rfl
    rw [hstep, hname]
    rfl
  have haccbranch : dget (acceptedToBackend
      (mkAcceptedPerson p ob tb fac today)) "branch" = some (.str tb) := rfl
  refine ⟨?_, ?_, ?_⟩
  · intro r hr
    have hr' : r ∈ List.filter
        (fun r => ¬ dget r "name" = some (.str key)) w := hr
    obtain ⟨-, hpred⟩ := List.mem_filter.mp hr'
    simpa using hpred
  · refine ⟨acceptedToBackend (mkAcceptedPerson p ob tb fac today), ?_,
      haccname⟩
    exact List.mem_append_right a (List.mem_singleton_self _)
  · intro r hr hrname
    have hr' : r ∈ a ++
        [acceptedToBackend (mkAcceptedPerson p ob tb fac today)] := hr
    rcases List.mem_append.mp hr' with hmem | hmem
    · exact absurd hrname (hA r hmem)
    · rw [List.mem_singleton.mp hmem]
      exact haccbranch

/-- C1 witness: the amended no-duplication property evaluated on concrete
one-row tables where the accepted table does not yet contain the name. -/
theorem C1_promote_no_duplication_witness :
    ∃ r ∈ (promoteOp [[("name", Val.str "Avi"), ("branch", Val.str "A")]]
        [[("name", Val.str "Ben"), ("branch", Val.str "B")]]
        [("שם מלא", Val.str "Avi")] "A" "B" "X" "2024-01-02" "Avi").2,
      dget r "name" = some (Val.str "Avi") :=
  (C1_promote_no_duplication
      [[("name", Val.str "Avi"), ("branch", Val.str "A")]]
      [[("name", Val.str "Ben"), ("branch", Val.str "B")]]
      [("שם מלא", Val.str "Avi")] "A" "B" "X" "2024-01-02" "Avi"
      (by decide) (by decide)).2.1

/-- C8: the name-keyed delete removes every row of the table whose name
column exactly equals the key; when no row matches, the table is returned
unchanged and no error is raised (silent no-op).  Scenario: with Avi in
branch A and Ben in branch B, deleting Avi and regrouping the remaining
rows makes the see-all listing contain exactly the converted Ben record. -/
theorem C8_remove_semantics :
    (∀ (t : List Person) (key : String) (r : Person),
        r ∈ removeByName t key ↔
          r ∈ t ∧ ¬ dget r "name" = some (.str key)) ∧
    (∀ (t : List Person) (key : String),
        (∀ r ∈ t, ¬ dget r "name" = some (.str key)) →
          removeByName t key = t) ∧
    (removeByName [[("name", Val.str "Avi"), ("branch", Val.str "A")],
        [("name", Val.str "Ben"), ("branch", Val.str "B")]] "Avi" =
      [[("name", Val.str "Ben"), ("branch", Val.str "B")]] ∧
     scopePeople (storeFromRows waitingFromBackend "X" ["הכל", "A", "B"]
        (removeByName [[("name", Val.str "Avi"), ("branch", Val.str "A")],
          [("name", Val.str "Ben"), ("branch", Val.str "B")]] "Avi"))
        "X" (fun _ => ["הכל", "A", "B"]) "הכל" =
      [waitingFromBackend [("name", Val.str "Ben"), ("branch", Val.str "B")]]) := by
  refine ⟨?_, ?_, by decide⟩
  · intro t key r
    simp [removeByName, List.mem_filter]
  · intro t key h
    apply List.filter_eq_self.mpr
    intro r hr
    simpa using h r hr

/-- C8 witness: the silent no-op evaluated on a concrete table with no
matching name. -/
theorem C8_remove_semantics_witness :
    removeByName [[("name", Val.str "Ben"), ("branch", Val.str "B")]] "Avi" =
      [[("name", Val.str "Ben"), ("branch", Val.str "B")]] :=
  C8_remove_semantics.2.1 [[("name", Val.str "Ben"), ("branch", Val.str "B")]]
    "Avi" (by decide)

/-- C3 counterexample: the add operation does not trim the stored name
when given a person record.  Adding a record whose full name is the
string with surrounding blanks around Dana succeeds, and the stored
record keeps the untrimmed name, not the trimmed one the claim states. -/
theorem C3_add_untrimmed_counterexample :
    (addToWaitlist (mkEmptyStore "X" ["A"])
        (.person [("שם מלא", Val.str "  Dana  ")]) "X" "A").1 = true ∧
    dsGet (addToWaitlist (mkEmptyStore "X" ["A"])
        (.person [("שם מלא", Val.str "  Dana  ")]) "X" "A").2 "X" "A" =
      [[("שם מלא", Val.str "  Dana  ")]] ∧
    dget [("שם מלא", Val.str "  Dana  ")] "שם מלא" ≠
      some (Val.str "Dana") := by
  decide

/-- C3 amended: the add operation fails and leaves the store unchanged
exactly when the full name is empty after trimming whitespace; on success
with a person record, the record is appended to the chosen branch list
unchanged, so its name keeps any surrounding whitespace; only the bare
string form of the argument is stored trimmed. -/
theorem C3_add_validation :
    ∀ (ds : DataStore) (p : Person) (facility branch : String),
      ((addToWaitlist ds (.person p) facility branch).1 = false ↔
        stripEmpty ((dget p "שם מלא").getD (.str "")) = true) ∧
      (stripEmpty ((dget p "שם מלא").getD (.str "")) = true →
        (addToWaitlist ds (.person p) facility branch).2 = ds) ∧
      (stripEmpty ((dget p "שם מלא").getD (.str "")) = false →
        (addToWaitlist ds (.person p) facility branch).2 =
          dsAppend ds facility branch p ∧
        (branch ∈ dsBranchKeys ds facility →
          dsGet (addToWaitlist ds (.person p) facility branch).2 facility
            branch = dsGet ds facility branch ++ [p])) ∧
      (∀ s : String, pytrim s = "" →
        addToWaitlist ds (.name s) facility branch = (false, ds)) ∧
      (∀ s : String, pytrim s ≠ "" →
        addToWaitlist ds (.name s) facility branch =
          (true, dsAppend ds facility branch [("שם מלא", .str (pytrim s))])) := by
  intro ds p facility branch
  refine ⟨?_, ?_, ?_, ?_, ?_⟩
  · by_cases h : stripEmpty ((dget p "שם מלא").getD (.str "")) = true
    · simp [addToWaitlist, h]
    · simp [addToWaitlist, h]
  · intro h
    simp [addToWaitlist, h]
  · intro h
    constructor
    · simp [addToWaitlist, h]
    · intro hb
      have hstore : (addToWaitlist ds (.person p) facility branch).2 =
          dsAppend ds facility branch p := by
        simp [addToWaitlist, h]
      rw [hstore]
      exact dsGet_dsAppend ds facility branch p hb
  · intro s hs
    simp [addToWaitlist, hs]
  · intro s hs
    simp [addToWaitlist, hs]

/-- C3 witness: the amended validation behavior evaluated on the Dana
record with surrounding whitespace and on the empty name. -/
theorem C3_add_validation_witness :
    ((addToWaitlist (mkEmptyStore "X" ["A"])
        (.person [("שם מלא", Val.str "")]) "X" "A").2 =
      mkEmptyStore "X" ["A"]) ∧
    dsGet (addToWaitlist (mkEmptyStore "X" ["A"])
        (.person [("שם מלא", Val.str "  Dana  ")]) "X" "A").2 "X" "A" =
      dsGet (mkEmptyStore "X" ["A"]) "X" "A" ++
        [[("שם מלא", Val.str "  Dana  ")]] :=
  ⟨(C3_add_validation (mkEmptyStore "X" ["A"]) [("שם מלא", Val.str "")]
      "X" "A").2.1 (by decide),
   ((C3_add_validation (mkEmptyStore "X" ["A"])
      [("שם מלא", Val.str "  Dana  ")] "X" "A").2.2.1 (by decide)).2
      (by decide)⟩

/-- C4 counterexample: the remote accepted-list read does not satisfy the
claimed error contract.  On an error-status response it returns None
instead of a data store, and on a transport failure both remote reads
let the exception escape to the caller. -/
theorem C4_load_counterexample :
    readAcceptedListDB "גוש דן" ["הכל", "תל אביב"] HttpResult.badStatus =
      Except.ok none ∧
    readAcceptedListDB "גוש דן" ["הכל", "תל אביב"] HttpResult.netFail =
      Except.error () ∧
    readWaitingListDB "גוש דן" ["הכל", "תל אביב"] HttpResult.netFail =
      Except.error () := ⟨rfl, rfl, rfl⟩

/-- C4 amended: the Excel and Google-Sheet loaders catch their failures
internally and always return a store keyed by the requested facility with
exactly the configured branch keys (empty or partially loaded lists); the
remote waiting-list read returns the empty skeleton store on an error
status and a fully keyed store on success, but propagates the exception
on a transport failure; the remote accepted-list read returns None on an
error status. -/
theorem C4_load_error_handling :
    (∀ (file : Option (List Sheet)) (fac : String) (branches : List String),
        dsBranchKeys (readExcelToDataStore file fac branches) fac =
          branches) ∧
    (∀ (fetch : String → Option Sheet) (fac : String)
        (branchGids : List (String × String)),
        dsBranchKeys (readGoogleSheetToDataStore fetch fac branchGids) fac =
          branchGids.map (fun bg => bg.1)) ∧
    (∀ (fac : String) (branches : List String),
        readWaitingListDB fac branches .badStatus =
          .ok (mkEmptyStore fac branches)) ∧
    (∀ (fac : String) (branches : List String) (rows : List Person),
        ∃ ds, readWaitingListDB fac branches (.ok rows) = .ok ds ∧
          dsBranchKeys ds fac = branches) ∧
    (∀ (fac : String) (branches : List String),
        readWaitingListDB fac branches .netFail = .error ()) ∧
    (∀ (fac : String) (branches : List String),
        readAcceptedListDB fac branches .badStatus = .ok none) := by
  refine ⟨?_, ?_, ?_, ?_, ?_, ?_⟩
  · intro file fac branches
    exact dsBranchKeys_readExcel file fac branches
  · intro fetch fac branchGids
    rw [dsBranchKeys_readGoogleSheet, dsBranchKeys_mkEmptyStore]
  · intro fac branches
    rfl
  · intro fac branches rows
    refine ⟨storeFromRows waitingFromBackend fac branches rows, rfl, ?_⟩
    rw [dsBranchKeys_storeFromRows, dsBranchKeys_mkEmptyStore]
  · intro fac branches
    rfl
  · intro fac branches
    rfl

/-- C7: the analytics metrics decompose over the branches in scope: for
the see-all pseudo-branch הכל the person count, all-checklist-yes count
and urgent count each equal the sum of the corresponding per-branch
counts over every real branch, and for a single real branch they are that
branch's counts.  Scenario: with Avi (all five checklist answers כן) in
branch A and Ben (mixed answers) in branch B of facility X, the see-all
scope lists both records and reports count 2, completion count 1 and
urgent count 0. -/
theorem C7_statistics_scope_counts :
    (∀ (ds : DataStore) (facility : String)
        (branchesOf : String → List String),
        totalPeople ds facility branchesOf "הכל" =
          (((branchesOf facility).filter (fun b => b ≠ "הכל")).map
            (fun b => (dsGet ds facility b).length)).sum ∧
        totalYesAll ds facility branchesOf "הכל" =
          (((branchesOf facility).filter (fun b => b ≠ "הכל")).map
            (fun b => (dsGet ds facility b).countP allChecklistYes)).sum ∧
        totalUrgentCases ds facility branchesOf "הכל" =
          (((branchesOf facility).filter (fun b => b ≠ "הכל")).map
            (fun b => (dsGet ds facility b).countP isUrgent)).sum) ∧
    (∀ (ds : DataStore) (facility : String)
        (branchesOf : String → List String) (b : String), b ≠ "הכל" →
        totalPeople ds facility branchesOf b = (dsGet ds facility b).length ∧
        totalYesAll ds facility branchesOf b =
          (dsGet ds facility b).countP allChecklistYes ∧
        totalUrgentCases ds facility branchesOf b =
          (dsGet ds facility b).countP isUrgent) ∧
    (scopePeople
        [("X", [("הכל", []),
                ("A", [[("שם מלא", Val.str "Avi"),
                        ("תאריך", Val.str "2024-01-01"),
                        ("אישור ועדה", Val.str "כן"),
                        ("דוח פסיכיאטרי", Val.str "כן"),
                        ("דוח פסיכוסוציאלי", Val.str "כן"),
                        ("דוח רפואי", Val.str "כן"),
                        ("צילום תז", Val.str "כן")]]),
                ("B", [[("שם מלא", Val.str "Ben"),
                        ("תאריך", Val.str "2024-06-01"),
                        ("אישור ועדה", Val.str "כן"),
                        ("דוח פסיכיאטרי", Val.str "לא"),
                        ("דוח פסיכוסוציאלי", Val.str "כן"),
                        ("דוח רפואי", Val.str "לא"),
                        ("צילום תז", Val.str "כן")]])])]
        "X" (fun _ => ["הכל", "A", "B"]) "הכל" =
      [[("שם מלא", Val.str "Avi"),
        ("תאריך", Val.str "2024-01-01"),
        ("אישור ועדה", Val.str "כן"),
        ("דוח פסיכיאטרי", Val.str "כן"),
        ("דוח פסיכוסוציאלי", Val.str "כן"),
        ("דוח רפואי", Val.str "כן"),
        ("צילום תז", Val.str "כן")],
       [("שם מלא", Val.str "Ben"),
        ("תאריך", Val.str "2024-06-01"),
        ("אישור ועדה", Val.str "כן"),
        ("דוח פסיכיאטרי", Val.str "לא"),
        ("דוח פסיכוסוציאלי", Val.str "כן"),
        ("דוח רפואי", Val.str "לא"),
        ("צילום תז", Val.str "כן")]] ∧
     totalPeople
        [("X", [("הכל", []),
                ("A", [[("שם מלא", Val.str "Avi"),
                        ("תאריך", Val.str "2024-01-01"),
                        ("אישור ועדה", Val.str "כן"),
                        ("דוח פסיכיאטרי", Val.str "כן"),
                        ("דוח פסיכוסוציאלי", Val.str "כן"),
                        ("דוח רפואי", Val.str "כן"),
                        ("צילום תז", Val.str "כן")]]),
                ("B", [[("שם מלא", Val.str "Ben"),
                        ("תאריך", Val.str "2024-06-01"),
                        ("אישור ועדה", Val.str "כן"),
                        ("דוח פסיכיאטרי", Val.str "לא"),
                        ("דוח פסיכוסוציאלי", Val.str "כן"),
                        ("דוח רפואי", Val.str "לא"),
                        ("צילום תז", Val.str "כן")]])])]
        "X" (fun _ => ["הכל", "A", "B"]) "הכל" = 2 ∧
     totalYesAll
        [("X", [("הכל", []),
                ("A", [[("שם מלא", Val.str "Avi"),
                        ("תאריך", Val.str "2024-01-01"),
                        ("אישור ועדה", Val.str "כן"),
                        ("דוח פסיכיאטרי", Val.str "כן"),
                        ("דוח פסיכוסוציאלי", Val.str "כן"),
                        ("דוח רפואי", Val.str "כן"),
                        ("צילום תז", Val.str "כן")]]),
                ("B", [[("שם מלא", Val.str "Ben"),
                        ("תאריך", Val.str "2024-06-01"),
                        ("אישור ועדה", Val.str "כן"),
                        ("דוח פסיכיאטרי", Val.str "לא"),
                        ("דוח פסיכוסוציאלי", Val.str "כן"),
                        ("דוח רפואי", Val.str "לא"),
                        ("צילום תז", Val.str "כן")]])])]
        "X" (fun _ => ["הכל", "A", "B"]) "הכל" = 1 ∧
     totalUrgentCases
        [("X", [("הכל", []),
                ("A", [[("שם מלא", Val.str "Avi"),
                        ("תאריך", Val.str "2024-01-01"),
                        ("אישור ועדה", Val.str "כן"),
                        ("דוח פסיכיאטרי", Val.str "כן"),
                        ("דוח פסיכוסוציאלי", Val.str "כן"),
                        ("דוח רפואי", Val.str "כן"),
                        ("צילום תז", Val.str "כן")]]),
                ("B", [[("שם מלא", Val.str "Ben"),
                        ("תאריך", Val.str "2024-06-01"),
                        ("אישור ועדה", Val.str "כן"),
                        ("דוח פסיכיאטרי", Val.str "לא"),
                        ("דוח פסיכוסוציאלי", Val.str "כן"),
                        ("דוח רפואי", Val.str "לא"),
                        ("צילום תז", Val.str "כן")]])])]
        "X" (fun _ => ["הכל", "A", "B"]) "הכל" = 0) := by
  refine ⟨?_, ?_, by decide⟩
  · intro ds facility branchesOf
    refine ⟨?_, ?_, ?_⟩
    · rw [totalPeople, scopePeople, if_pos rfl, length_flatMap]
    · rw [totalYesAll, scopePeople, if_pos rfl, countP_flatMap]
    · rw [totalUrgentCases, scopePeople, if_pos rfl, countP_flatMap]
  · intro ds facility branchesOf b hb
    refine ⟨?_, ?_, ?_⟩
    · rw [totalPeople, scopePeople, if_neg hb]
    · rw [totalYesAll, scopePeople, if_neg hb]
    · rw [totalUrgentCases, scopePeople, if_neg hb]

/-- C7 witness: the single-branch decomposition evaluated on a concrete
store. -/
theorem C7_statistics_scope_counts_witness :
    totalPeople [("X", [("הכל", []), ("A", [[("שם מלא", Val.str "Avi")]])])]
        "X" (fun _ => ["הכל", "A"]) "A" =
      (dsGet [("X", [("הכל", []), ("A", [[("שם מלא", Val.str "Avi")]])])]
        "X" "A").length :=
  (C7_statistics_scope_counts.2.1
    [("X", [("הכל", []), ("A", [[("שם מלא", Val.str "Avi")]])])]
    "X" (fun _ => ["הכל", "A"]) "A" (by decide)).1

/-- C6 counterexample: two divergences from the claim.  First, an
unparseable intake date is not excluded from the dates list feeding the
month/day occupancy aggregation: with Dana dated garbage and Ben dated
2024-01-01 the dates list keeps the garbage entry, and the strict
aggregation (pd.to_datetime without coerce) raises on it.  Second, the
average is guarded on the first record having the date key: when Dana has
no date key and Ben has a parseable date, the reported average is 0 while
the mean over exactly the parseable records is 10. -/
theorem C6_statistics_counterexample :
    (calculateStatistics
        [("X", [("A", [[("שם מלא", Val.str "Dana"),
                        ("תאריך", Val.str "garbage")],
                       [("שם מלא", Val.str "Ben"),
                        ("תאריך", Val.str "2024-01-01")]])])]
        ["X"] (fun _ => ["הכל", "A"]) (some "X") (some "A")
        (daysFromCivil 2024 1 11)).map (fun st => st.dates) =
      [[Val.str "garbage", Val.str "2024-01-01"]] ∧
    strictMonthAgg [Val.str "garbage", Val.str "2024-01-01"] =
      Except.error () ∧
    (calculateStatistics
        [("X", [("A", [[("שם מלא", Val.str "Dana")],
                       [("שם מלא", Val.str "Ben"),
                        ("תאריך", Val.str "2024-01-01")]])])]
        ["X"] (fun _ => ["הכל", "A"]) (some "X") (some "A")
        (daysFromCivil 2024 1 11)).map (fun st => st.avgWait) = [0] ∧
    meanInt ((([[("שם מלא", Val.str "Dana")],
        [("שם מלא", Val.str "Ben"),
         ("תאריך", Val.str "2024-01-01")]].filterMap
          (fun p => (dget p "תאריך").bind parseVal)).map
            (fun d => daysFromCivil 2024 1 11 - d))) ≠ 0 := by
  refine ⟨by decide, rfl, by decide, ?_⟩
  have h1 : ([[("שם מלא", Val.str "Dana")],
      [("שם מלא", Val.str "Ben"), ("תאריך", Val.str "2024-01-01")]].filterMap
        (fun p => (dget p "תאריך").bind parseVal)).map
          (fun d => daysFromCivil 2024 1 11 - d) = [10] := by decide
  rw [h1, meanInt]
  norm_num

/-- C6 amended: for a branch whose record list is nonempty and whose
first record carries the intake-date key, the statistics entry counts
every record (dirty dates included), its average wait equals the mean of
(today minus date) over exactly the records whose date parses whenever at
least one does, and its raw dates list keeps every truthy date value,
parseable or not; calculate_statistics itself never raises (the coercing
parse drops unparseable dates from the average), but the downstream
month/day aggregation parses the raw list strictly: it raises exactly
when some collected date fails to parse. -/
theorem C6_statistics_dirty_dates :
    (∀ (ds : DataStore) (facs : List String)
        (branchesOf : String → List String) (f b : String) (today : Int)
        (first : Person) (rest : List Person),
        dsGet ds f b = first :: rest →
        (dget first "תאריך").isSome = true →
        calculateStatistics ds facs branchesOf (some f) (some b) today =
          [branchStatsOf f b (first :: rest) today] ∧
        (branchStatsOf f b (first :: rest) today).count =
          (first :: rest).length ∧
        (branchStatsOf f b (first :: rest) today).dates =
          ((first :: rest).filter hasTruthyDate).map
            (fun p => (dget p "תאריך").getD (.str "")) ∧
        ((first :: rest).filterMap
            (fun p => (dget p "תאריך").bind parseVal) ≠ [] →
          (branchStatsOf f b (first :: rest) today).avgWait =
            meanInt (((first :: rest).filterMap
              (fun p => (dget p "תאריך").bind parseVal)).map
                (fun d => today - d)))) ∧
    (∀ dates : List Val, (∃ v ∈ dates, monthOf v = none) →
        strictMonthAgg dates = .error ()) ∧
    (∀ dates : List Val, (∀ v ∈ dates, (monthOf v).isSome) →
        ∃ out, strictMonthAgg dates = .ok out) := by
  refine ⟨?_, ?_, ?_⟩
  · intro ds facs branchesOf f b today first rest hget hhead
    refine ⟨by simp [calculateStatistics, hget], rfl, rfl, ?_⟩
    intro hne
    have hcollapse := filterMap_truthy_parse (first :: rest)
    simp only [branchStatsOf, hcollapse, hhead]
    rw [if_pos]
    simp [List.isEmpty_iff, hne]
  · intro dates hex
    rw [strictMonthAgg, monthsOfDates_error hex]
    rfl
  · intro dates hall
    obtain ⟨ms, hms⟩ := monthsOfDates_ok hall
    refine ⟨(dedupMonths ms).map (fun k => (k, ms.countP (fun x => x = k))), ?_⟩
    rw [strictMonthAgg, hms]
    rfl

/-- C6 witness: the amended statement evaluated on the concrete Dana and
Ben branch with one garbage date and one parseable date. -/
theorem C6_statistics_dirty_dates_witness :
    calculateStatistics
        [("X", [("A", [[("שם מלא", Val.str "Dana"),
                        ("תאריך", Val.str "garbage")],
                       [("שם מלא", Val.str "Ben"),
                        ("תאריך", Val.str "2024-01-01")]])])]
        ["X"] (fun _ => ["הכל", "A"]) (some "X") (some "A")
        (daysFromCivil 2024 1 11) =
      [branchStatsOf "X" "A"
        [[("שם מלא", Val.str "Dana"), ("תאריך", Val.str "garbage")],
         [("שם מלא", Val.str "Ben"), ("תאריך", Val.str "2024-01-01")]]
        (daysFromCivil 2024 1 11)] ∧
    strictMonthAgg [Val.str "garbage"] = Except.error () :=
  ⟨(C6_statistics_dirty_dates.1
      [("X", [("A", [[("שם מלא", Val.str "Dana"),
                      ("תאריך", Val.str "garbage")],
                     [("שם מלא", Val.str "Ben"),
                      ("תאריך", Val.str "2024-01-01")]])])]
      ["X"] (fun _ => ["הכל", "A"]) "X" "A" (daysFromCivil 2024 1 11)
      [("שם מלא", Val.str "Dana"), ("תאריך", Val.str "garbage")]
      [[("שם מלא", Val.str "Ben"), ("תאריך", Val.str "2024-01-01")]]
      (by decide) (by decide)).1,
   C6_statistics_dirty_dates.2.1 [Val.str "garbage"]
     ⟨Val.str "garbage", by decide, by decide⟩⟩
